import Mathlib

/-!
Verification development for the `ai-web-creator` agent system.

Shallow embedding of the parts of the TypeScript source the checked claims
are about:

* `src/utils/logger.ts` (second document): the retry executor —
  `addJitter`, `calculateDelay`, `isRetriableError`, `withRetry`.
* `src/memory/store.ts` (first document): the SQLite-backed memory store —
  the `memories` table, `searchMemories`, `getMemoriesByUser`,
  `updateMemoryAccess`, `addMessage` and the retention sweep
  `cleanupExpiredMemories`.
* `src/agents/agent.ts` (second document): `handleToolCalls`.

Modelling conventions: JavaScript numbers that the code uses as
millisecond delays, importances and multipliers become `ℚ`; unix-second
timestamps become `ℤ`; row counts and attempt counters become `ℕ`.
SQLite tables become Lean lists of row structures held in rowid
(insertion) order.  SQL `ORDER BY` is a stable sort on the named key,
so rows that tie on the key keep their rowid order — SQLite itself
leaves the tie order unspecified, and the model commits to scan order;
no claim below depends on any other tie behaviour except where the
absence of an `id` tie-break is itself the point, and there the model's
choice is stated explicitly.  Promise rejection becomes `Except`.
-/

/-! ## Retry executor (`src/utils/logger.ts`, retry document) -/

/-- A JavaScript `Error` as the retry code consumes it: only its
`message` is ever inspected. -/
structure TsError where
  message : String
deriving DecidableEq, Repr

/-- `pat` matches at the head of `l` (character-wise). -/
def headMatch : List Char → List Char → Bool
  | [], _ => true
  | _ :: _, [] => false
  | p :: ps, c :: cs => p = c && headMatch ps cs

/-- `pat` occurs somewhere in `l`. -/
def subMatch (pat : List Char) : List Char → Bool
  | [] => headMatch pat []
  | l@(_ :: t) => headMatch pat l || subMatch pat t

/-- JavaScript `String.prototype.includes`. -/
def strIncludes (s pat : String) : Bool :=
  subMatch pat.data s.data

/-- `RetryOptionsWithCallback` after `withRetry` has applied its `??`
defaults (logger.ts lines 137–145).  `onRetry` is threaded separately
into the run model so that a throwing callback can be expressed. -/
structure RetryOpts where
  maxAttempts : Nat
  initialDelay : ℚ
  maxDelay : ℚ
  backoffMultiplier : ℚ
  jitter : Bool
  retryCondition : TsError → Bool

/-- The caller-supplied options record before defaulting: every field of
`RetryOptionsWithCallback` is optional at the call site. -/
structure RetryOptsInput where
  maxAttempts : Option Nat := none
  initialDelay : Option ℚ := none
  maxDelay : Option ℚ := none
  backoffMultiplier : Option ℚ := none
  jitter : Option Bool := none
  retryCondition : Option (TsError → Bool) := none

/-- The `??` defaulting at the top of `withRetry`: in particular the
default `retryCondition` is the constantly-true function. -/
def resolveOpts (o : RetryOptsInput) : RetryOpts where
  maxAttempts := o.maxAttempts.getD 3
  initialDelay := o.initialDelay.getD 1000
  maxDelay := o.maxDelay.getD 10000
  backoffMultiplier := o.backoffMultiplier.getD 2
  jitter := o.jitter.getD true
  retryCondition := o.retryCondition.getD (fun _ => true)

/-- `Math.pow` on rationals at natural exponents, by structural recursion
so that concrete delay computations evaluate by kernel reduction. -/
def qpow (base : ℚ) : Nat → ℚ
  | 0 => 1
  | n + 1 => qpow base n * base

theorem qpow_eq_pow (base : ℚ) (n : Nat) : qpow base n = base ^ n := by
  induction n with
  | zero => rfl
  | succ k ih => rw [qpow, ih, pow_succ]

/-- `addJitter`: perturb `delay` by ±10%.  `rand` stands for the
`Math.random()` draw, a value in `[0,1]`. -/
def addJitter (delay : ℚ) (rand : ℚ) : ℚ :=
  let jitter := delay * (1/10)
  delay + (rand - 1/2) * 2 * jitter

/-- `calculateDelay`: exponential backoff, capped at `maxDelay`, with the
jitter applied after the cap. -/
def calculateDelay (attempt : Nat) (options : RetryOpts) (rand : ℚ) : ℚ :=
  let delay := options.initialDelay * qpow options.backoffMultiplier (attempt - 1)
  let delay := min delay options.maxDelay
  if options.jitter then addJitter delay rand else delay

/-- `isRetriableError`: the built-in substring checks run first (network
error codes, any message containing `"5"`, any containing `"429"`); the
custom condition is consulted only when none of them match, and with no
condition the fall-through answer is `false`. -/
def isRetriableError (error : TsError) (retryCondition : Option (TsError → Bool)) : Bool :=
  if strIncludes error.message "ECONNRESET" ||
     strIncludes error.message "ETIMEDOUT" ||
     strIncludes error.message "ENOTFOUND" ||
     strIncludes error.message "EAI_AGAIN" then
    true
  else if strIncludes error.message "5" then
    true
  else if strIncludes error.message "429" then
    true
  else
    match retryCondition with
    | some cond => cond error
    | none => false

/-- Everything observable about one `withRetry` run: the settled promise,
how many times `fn` was invoked, every `onRetry` call in order, and every
delay actually slept. -/
structure RunResult (α : Type) where
  outcome : Except TsError α
  invocations : Nat
  onRetryCalls : List (Nat × TsError)
  delays : List ℚ
deriving Repr

/-- The `for` loop of `withRetry`.  `fn n` is the outcome of the n-th
invocation of the operation (1-indexed).  `onR a e = some ex` models the
`onRetry` callback throwing `ex` at retry `a` — the source calls
`opts.onRetry(attempt, err)` with no surrounding try/catch, so the throw
propagates and the loop never reaches `await sleep(delay)`; a delay is
therefore recorded only when the callback returns normally.  `fuel` is
`maxAttempts - attempt + 1`; fuel 0 models the loop guard failing, where
the trailing `throw lastError || new Error(...)` fires with `lastError`
still unset. -/
def retryLoop (opts : RetryOpts) (fn : Nat → Except TsError α)
    (onR : Nat → TsError → Option TsError) (rand : Nat → ℚ) :
    Nat → Nat → RunResult α
  | 0, attempt =>
    ⟨.error ⟨"Retry failed with unknown error"⟩, attempt - 1, [], []⟩
  | fuel + 1, attempt =>
    match fn attempt with
    | .ok a => ⟨.ok a, attempt, [], []⟩
    | .error err =>
      if attempt ≥ opts.maxAttempts then
        ⟨.error err, attempt, [], []⟩
      else if ¬ isRetriableError err (some opts.retryCondition) then
        ⟨.error err, attempt, [], []⟩
      else
        let delay := calculateDelay attempt opts (rand attempt)
        match onR attempt err with
        | some ex => ⟨.error ex, attempt, [(attempt, err)], []⟩
        | none =>
          let rest := retryLoop opts fn onR rand fuel (attempt + 1)
          ⟨rest.outcome, rest.invocations,
            (attempt, err) :: rest.onRetryCalls, delay :: rest.delays⟩

/-- `withRetry` (logger.ts lines 133–179) over resolved options. -/
def withRetryRun (opts : RetryOpts) (fn : Nat → Except TsError α)
    (onR : Nat → TsError → Option TsError) (rand : Nat → ℚ) : RunResult α :=
  retryLoop opts fn onR rand opts.maxAttempts 1

/-! ## Memory store (`src/memory/store.ts`, first document) -/

/-- One row of the `memories` table.  `rowid` is SQLite's implicit rowid,
assigned at insertion; `session_id` / `user_id` are the two nullable scope
columns; `tags` is the raw JSON text column. -/
structure MemRow where
  rowid : Nat
  id : String
  session_id : Option String
  user_id : Option String
  content : String
  importance : ℚ
  access_count : Nat
  created_at : ℤ
  accessed_at : ℤ
  tags : Option String
deriving DecidableEq, Repr

/-- `MemoryExpiryConfig`, fields as in store.ts lines 47–58.
`maxMemoriesPerUser` and `maxAgeDays` are counts, modelled as `ℕ`. -/
structure MemoryExpiryConfig where
  enabled : Bool
  maxMemoriesPerUser : Nat
  maxAgeDays : Nat
  minImportance : ℚ
  cleanupOnStartup : Bool
deriving Repr

/-- Stable insertion of `x` into `acc`: `x` lands before the first element
it is strictly below, hence after every earlier element it ties with. -/
def insertStable (lt : α → α → Bool) (x : α) : List α → List α
  | [] => [x]
  | y :: ys => if lt x y then x :: y :: ys else y :: insertStable lt x ys

/-- Stable sort by the strict comparison `lt`: elements that tie keep
their original (rowid) order, which is the model's reading of a SQLite
`ORDER BY` whose key does not totally order the rows. -/
def stableSort (lt : α → α → Bool) (l : List α) : List α :=
  l.foldl (fun acc x => insertStable lt x acc) []

/-- SQL `=` between two nullable values: `NULL` compares false. -/
def sqlEqOpt (a b : Option String) : Bool :=
  match a, b with
  | some x, some y => x = y
  | _, _ => false

/-- JavaScript `s || undefined` / `s || null` on an optional string:
the empty string is falsy and collapses to none. -/
def jsFalsyOpt (o : Option String) : Option String :=
  match o with
  | some "" => none
  | x => x

/-- ASCII lower-casing, for SQLite's default `LIKE`, which is
case-insensitive on ASCII. -/
def asciiLower (s : String) : String :=
  ⟨s.data.map Char.toLower⟩

/-- `content LIKE '%query%'` for a query with no `%`/`_` wildcard
characters (the code interpolates the raw query between two `%`). -/
def likeContains (content query : String) : Bool :=
  strIncludes (asciiLower content) (asciiLower query)

/-- Strict comparison for `ORDER BY importance DESC, accessed_at DESC`. -/
def orderByImportanceDesc (a b : MemRow) : Bool :=
  decide (b.importance < a.importance) ||
    (decide (a.importance = b.importance) && decide (b.accessed_at < a.accessed_at))

/-- Strict comparison for `ORDER BY importance ASC, accessed_at ASC` —
the victim order of the capacity pass.  Note: no `id` column appears in
the key. -/
def orderByImportanceAsc (a b : MemRow) : Bool :=
  decide (a.importance < b.importance) ||
    (decide (a.importance = b.importance) && decide (a.accessed_at < b.accessed_at))

/-- The `MemoryRecord` the store hands back to callers. -/
structure MemoryRecord where
  id : String
  sessionId : Option String
  content : String
  importance : ℚ
  accessCount : Nat
  tags : Option String
  createdAt : ℤ
  accessedAt : ℤ
deriving DecidableEq, Repr

/-- `mapMemoryRow`: project a row to a `MemoryRecord` (`row.session_id ||
undefined` collapses the empty string; the `JSON.parse` of `tags` is kept
as the raw text). -/
def mapMemoryRow (row : MemRow) : MemoryRecord where
  id := row.id
  sessionId := jsFalsyOpt row.session_id
  content := row.content
  importance := row.importance
  accessCount := row.access_count
  tags := row.tags
  createdAt := row.created_at
  accessedAt := row.accessed_at

/-- `updateMemoryAccess`: `UPDATE memories SET access_count = access_count
+ 1, accessed_at = ? WHERE id = ?`. -/
def updateMemoryAccess (now : ℤ) (id : String) (rows : List MemRow) : List MemRow :=
  rows.map fun r =>
    if r.id = id then { r with access_count := r.access_count + 1, accessed_at := now } else r

/-- `searchMemories` (store.ts lines 377–388): select the rows visible to
the (falsy-collapsed) session parameter whose content LIKE-matches the
query, order by importance then recency of access, truncate, and map the
rows out.  No access statistics are touched: the result pairs the records
with the table unchanged. -/
def searchMemories (query : String) (sessionId : Option String) (limit : Nat)
    (rows : List MemRow) : List MemoryRecord × List MemRow :=
  let param := jsFalsyOpt sessionId
  let selected :=
    (stableSort orderByImportanceDesc
      (rows.filter fun r =>
        (sqlEqOpt r.session_id param || decide (r.session_id = none) ||
          sqlEqOpt r.user_id param) && likeContains r.content query)).take limit
  (selected.map mapMemoryRow, rows)

/-- The SELECT of `getMemoriesByUser`: `WHERE user_id = ? ORDER BY
importance DESC, accessed_at DESC LIMIT ?`. -/
def selectMemoriesByUser (userId : String) (limit : Nat)
    (rows : List MemRow) : List MemRow :=
  (stableSort orderByImportanceDesc
    (rows.filter fun r => decide (r.user_id = some userId))).take limit

/-- `getMemoriesByUser` (store.ts lines 365–375): select the user's rows
ordered by importance then recency of access, truncate, and for each
returned row run `updateMemoryAccess` before mapping the (pre-update) row
out. -/
def getMemoriesByUser (userId : String) (limit : Nat) (now : ℤ)
    (rows : List MemRow) : List MemoryRecord × List MemRow :=
  let selected := selectMemoriesByUser userId limit rows
  (selected.map mapMemoryRow,
    selected.foldl (fun acc row => updateMemoryAccess now row.id acc) rows)

/-! ### The retention sweep (`cleanupExpiredMemories`, store.ts 462–528) -/

/-- The rows of the table scoped to user `u`. -/
def userRows (rows : List MemRow) (u : String) : List MemRow :=
  rows.filter fun r => decide (r.user_id = some u)

/-- The age pass for one user: `DELETE FROM memories WHERE user_id = ?
AND created_at < ? AND importance < ?`. -/
def agePassUser (u : String) (cutoff : ℤ) (minImportance : ℚ)
    (rows : List MemRow) : List MemRow :=
  rows.filter fun r =>
    !(decide (r.user_id = some u) && decide (r.created_at < cutoff) &&
      decide (r.importance < minImportance))

/-- The capacity-pass victim subquery: `SELECT rowid FROM memories WHERE
user_id = ? ORDER BY importance ASC, accessed_at ASC LIMIT excess` —
rows that tie on the key fall to scan order, since the key has no `id`
tie-break. -/
def capacityVictims (rows : List MemRow) (u : String) (excess : Nat) : List MemRow :=
  (stableSort orderByImportanceAsc (userRows rows u)).take excess

/-- `DELETE FROM memories WHERE rowid IN ids`. -/
def deleteByRowids (rows : List MemRow) (ids : List Nat) : List MemRow :=
  rows.filter fun r => !(decide (r.rowid ∈ ids))

/-- The per-user body of the sweep loop: age pass, then recount, then if
over capacity delete the surplus victims by rowid. -/
def cleanupUser (cfg : MemoryExpiryConfig) (cutoff : ℤ) (rows : List MemRow)
    (u : String) : List MemRow :=
  let afterAge := agePassUser u cutoff cfg.minImportance rows
  let count := (userRows afterAge u).length
  if cfg.maxMemoriesPerUser < count then
    let excess := count - cfg.maxMemoriesPerUser
    deleteByRowids afterAge ((capacityVictims afterAge u excess).map (·.rowid))
  else afterAge

/-- One iteration of the sweep's user loop: skip users other than
`options.userId` when that option is a truthy string (the empty string is
falsy and disables the filter), otherwise run both passes for the user. -/
def sweepStep (cfg : MemoryExpiryConfig) (cutoff : ℤ) (target : Option String)
    (acc : List MemRow) (u : String) : List MemRow :=
  match target with
  | some t => if t ≠ "" && u ≠ t then acc else cleanupUser cfg cutoff acc u
  | none => cleanupUser cfg cutoff acc u

/-- `cleanupExpiredMemories`: no-op when retention is disabled; otherwise
enumerate the distinct non-null `user_id` values and run the sweep step
for each. -/
def cleanupExpiredMemories (cfg : MemoryExpiryConfig) (now : ℤ)
    (target : Option String) (rows : List MemRow) : List MemRow :=
  if cfg.enabled = false then rows
  else
    let cutoff : ℤ := now - (cfg.maxAgeDays : ℤ) * 86400
    let users := (rows.filterMap (·.user_id)).dedup
    users.foldl (sweepStep cfg cutoff target) rows

/-- Lexicographic comparison of character lists, total on distinct
lists. -/
def charListLt : List Char → List Char → Bool
  | [], [] => false
  | [], _ :: _ => true
  | _ :: _, [] => false
  | a :: as, b :: bs => if a < b then true else if b < a then false else charListLt as bs

/-- Lexicographic string comparison (the usual order on SQLite TEXT). -/
def strLt (a b : String) : Bool := charListLt a.data b.data

/-- The victim order the specification describes: ascending
`(importance, accessedAt)` with remaining ties broken by `id`.  This
definition follows the spec's words, for comparison against
`capacityVictims`, which is transcribed from the SQL. -/
def specOrderVictimLt (a b : MemRow) : Bool :=
  decide (a.importance < b.importance) ||
    (decide (a.importance = b.importance) &&
      (decide (a.accessed_at < b.accessed_at) ||
        (decide (a.accessed_at = b.accessed_at) && strLt a.id b.id)))

/-- The surplus victims the specification describes: the `excess`
smallest user rows under `specOrderVictimLt`. -/
def specCapacityVictims (rows : List MemRow) (u : String) (excess : Nat) : List MemRow :=
  (stableSort specOrderVictimLt (userRows rows u)).take excess

/-! ### Sessions and messages (`createSession` / `addMessage`) -/

/-- One row of the `sessions` table. -/
structure SessionRow where
  id : String
  user_id : String
  created_at : ℤ
  updated_at : ℤ
  metadata : Option String
deriving DecidableEq, Repr

/-- The message role column, constrained by the schema CHECK. -/
inductive Role where
  | system
  | user
  | assistant
  | tool
deriving DecidableEq, Repr

/-- One row of the `messages` table. -/
structure MsgRow where
  id : String
  session_id : String
  role : Role
  content : String
  tool_call_id : Option String
  tool_name : Option String
  timestamp : ℤ
  tokens : Option ℤ
deriving DecidableEq, Repr

/-- The `Message` value callers hand to `addMessage` (utils/types).
`id` and `timestamp` are optional at the call site; the JavaScript
`||` defaulting treats the empty string and 0 as absent. -/
structure MessageTs where
  id : Option String := none
  role : Role
  content : String
  timestamp : Option ℤ := none
  toolCallId : Option String := none
  toolName : Option String := none
deriving Repr

/-- The sessions and messages tables together, since the messages table
carries an enforced foreign key into sessions. -/
structure StoreState where
  sessions : List SessionRow
  messages : List MsgRow
deriving DecidableEq, Repr

/-- The errors the store surfaces in this model: with
`PRAGMA foreign_keys = ON`, inserting a message whose `session_id` names
no session raises a foreign-key constraint violation. -/
inductive SqlError where
  | foreignKeyViolation
deriving DecidableEq, Repr

/-- JavaScript `x || fallback` on an optional string (empty string is
falsy). -/
def jsOrStr (x : Option String) (fallback : String) : String :=
  match x with
  | some s => if s = "" then fallback else s
  | none => fallback

/-- JavaScript `x || fallback` on an optional number (0 is falsy). -/
def jsOrInt (x : Option ℤ) (fallback : ℤ) : ℤ :=
  match x with
  | some t => if t = 0 then fallback else t
  | none => fallback

/-- `addMessage` (store.ts lines 266–278): one INSERT into `messages`,
with `message.id || this.generateId()` and `message.timestamp || now`
defaulting (`freshId` stands for the `generateId()` draw).  The method
runs no other statement: in particular it never touches the `sessions`
table.  The insert fails on the foreign-key constraint when the session
does not exist. -/
def addMessage (message : MessageTs) (sessionId : String) (freshId : String)
    (now : ℤ) (st : StoreState) : Except SqlError StoreState :=
  if st.sessions.any (fun s => s.id = sessionId) then
    .ok { st with
      messages := st.messages ++
        [⟨jsOrStr message.id freshId, sessionId, message.role, message.content,
          message.toolCallId, message.toolName, jsOrInt message.timestamp now, none⟩] }
  else
    .error .foreignKeyViolation

/-! ## Agent tool dispatch (`src/agents/agent.ts`, second document,
`handleToolCalls` lines 579–669) -/

/-- A `ToolCallResult` as returned by `ToolRegistry.execute`. -/
structure ToolCallResultV where
  success : Bool
  data : Option String
  error : Option String
deriving DecidableEq, Repr

/-- What one awaited tool invocation does: return a `ToolCallResult`, or
throw. -/
inductive ToolOutcome where
  | result (r : ToolCallResultV)
  | raises (message : String)
deriving DecidableEq, Repr

/-- One requested tool call: its name, its serialized parameters, and the
outcome its execution will have. -/
structure ToolCallReq where
  name : String
  parameters : String
  outcome : ToolOutcome
deriving DecidableEq, Repr

/-- The fields of the persisted `tool_calls` row that `handleToolCalls`
fills in (the `id` comes from `generateId()` and is left out of the
model): on the success path `result` holds the whole `ToolCallResult`,
on the catch path no `result` is passed at all. -/
structure ToolRecord where
  sessionId : String
  toolName : String
  parameters : String
  result : Option ToolCallResultV
  success : Bool
  timestamp : ℤ
deriving DecidableEq, Repr

/-- The entry `handleToolCalls` pushes onto its local `results` array. -/
structure ToolResultEntry where
  toolName : String
  success : Bool
  result : Option String
  error : Option String
deriving DecidableEq, Repr

/-- `JSON.stringify(x, null, 2)` on the optional `data` payload, which
this model keeps as an optional string: `undefined` prints as
`undefined`, a string prints quoted. -/
def jsonStringifyOpt (x : Option String) : String :=
  match x with
  | none => "undefined"
  | some s => "\"" ++ s ++ "\""

/-- A template-literal interpolation of an optional string:
`undefined` prints as `undefined`. -/
def tmplOpt (x : Option String) : String :=
  match x with
  | none => "undefined"
  | some s => s

/-- Process one tool call: the try branch records the returned
`ToolCallResult` whole; the catch branch records `success=false` with no
result, and the pushed entry's error is the exception's message. -/
def processToolCall (sid : String) (now : ℤ) (call : ToolCallReq) :
    ToolRecord × ToolResultEntry :=
  match call.outcome with
  | .result r =>
    (⟨sid, call.name, call.parameters, some r, r.success, now⟩,
     ⟨call.name, r.success, r.data, r.error⟩)
  | .raises msg =>
    (⟨sid, call.name, call.parameters, none, false, now⟩,
     ⟨call.name, false, none, some msg⟩)

/-- The summary line built for one `results` entry. -/
def summaryLine (r : ToolResultEntry) : String :=
  if r.success then
    "\nTool " ++ r.toolName ++ " result: " ++ jsonStringifyOpt r.result
  else
    "\nTool " ++ r.toolName ++ " failed: " ++ tmplOpt r.error

/-- `handleToolCalls`: every requested call is processed in order — a
throwing tool is caught, never aborting the loop — a `tool_calls` row is
recorded for each, and the summary of all outcomes is appended to the
response text, with a canned lead-in substituted when the model produced
no prose.  Returns the final response content and the recorded rows. -/
def handleToolCalls (content : String) (calls : List ToolCallReq)
    (sid : String) (now : ℤ) : String × List ToolRecord :=
  if calls.isEmpty then (content, [])
  else
    let processed := calls.map (processToolCall sid now)
    let records := processed.map (·.1)
    let results := processed.map (·.2)
    let toolSummary := String.intercalate "\n" (results.map summaryLine)
    let baseContent := content
    let finalContent :=
      if baseContent = "" ∧ results.length > 0 then
        "I\x27ve used the available tools to help with your request:" ++ toolSummary
      else baseContent ++ toolSummary
    (finalContent, records)

/-! ## Theorems -/

/-- The disjunction of the built-in substring checks of
`isRetriableError`, in source order: the four network error codes, any
message containing `"5"`, any message containing `"429"`. -/
def builtinRetriable (e : TsError) : Bool :=
  strIncludes e.message "ECONNRESET" || strIncludes e.message "ETIMEDOUT" ||
    strIncludes e.message "ENOTFOUND" || strIncludes e.message "EAI_AGAIN" ||
    strIncludes e.message "5" || strIncludes e.message "429"

/-- Claim C2, counterexample.  Three concrete refutations of the stated
classification: an error mentioning neither a network code, nor `5`, nor
`429` is nonetheless classified retryable when no custom predicate is
supplied (because `withRetry` defaults the condition to constantly true);
a connection-reset error is classified retryable even though the supplied
custom predicate answers false for it (so the predicate does not replace
the default classification); and a message merely containing the digit 5
is classified retryable over a custom predicate answering false (so the
`5xx` check is really a substring test for the character `5`). -/
theorem isRetriableError_default_counterexample :
    isRetriableError ⟨"auth denied"⟩ (some ((resolveOpts {}).retryCondition)) = true ∧
    isRetriableError ⟨"ECONNRESET"⟩ (some (fun _ => false)) = true ∧
    isRetriableError ⟨"row 57 malformed"⟩ (some (fun _ => false)) = true := by
  refine ⟨?_, by decide, by decide⟩
  show isRetriableError ⟨"auth denied"⟩ (some (fun _ => true)) = true
  decide

/-- Claim C2, amended: with no custom predicate supplied, `withRetry`
defaults the retry condition to constantly true, so every error is
classified retryable; when a custom predicate is supplied, the built-in
substring checks (network codes, any `"5"`, any `"429"`) still run first
and force a retryable verdict, and the predicate decides exactly the
errors no built-in check matches — it extends the default classification
rather than replacing it. -/
theorem isRetriableError_classification :
    (∀ (o : RetryOptsInput) (e : TsError), o.retryCondition = none →
        isRetriableError e (some ((resolveOpts o).retryCondition)) = true) ∧
    (∀ (e : TsError) (p : TsError → Bool), builtinRetriable e = true →
        isRetriableError e (some p) = true) ∧
    (∀ (e : TsError) (p : TsError → Bool), builtinRetriable e = false →
        isRetriableError e (some p) = p e) := by
  refine ⟨?_, ?_, ?_⟩
  · intro o e h
    have hc : (resolveOpts o).retryCondition = fun _ => true := by
      simp [resolveOpts, h]
    rw [hc]
    unfold isRetriableError
    split
    · rfl
    · split
      · rfl
      · split <;> rfl
  · intro e p h
    simp only [builtinRetriable, Bool.or_eq_true] at h
    unfold isRetriableError
    split
    · rfl
    · rename_i hn
      simp only [Bool.or_eq_true, not_or] at hn
      split
      · rfl
      · split
        · rfl
        · rename_i h5 h429
          rcases h with ((((h | h) | h) | h) | h) | h <;>
            simp_all
  · intro e p h
    simp only [builtinRetriable, Bool.or_eq_true, not_or] at h
    unfold isRetriableError
    split
    · rename_i hn
      rw [Bool.or_eq_true, Bool.or_eq_true, Bool.or_eq_true] at hn
      simp_all
    · split
      · simp_all
      · split
        · simp_all
        · rfl

/-- Witness for `isRetriableError_classification` at concrete inputs:
the empty options record has no custom predicate, so an uninformative
error is retried; and for an error matching no built-in check a supplied
predicate's verdict is the classification. -/
theorem isRetriableError_classification_witness :
    isRetriableError ⟨"bad token"⟩ (some ((resolveOpts {}).retryCondition)) = true ∧
    isRetriableError ⟨"bad token"⟩ (some (fun _ => false)) = false := by
  refine ⟨isRetriableError_classification.1 {} ⟨"bad token"⟩ rfl, ?_⟩
  rw [isRetriableError_classification.2.2 ⟨"bad token"⟩ (fun _ => false) (by decide)]

/-- A retry policy with jitter disabled and the backoff parameters of the
spec's determinism scenario: initialDelay 100, multiplier 2, maxDelay
1000, enough attempts for three waits. -/
def backoffProbeOpts : RetryOpts where
  maxAttempts := 4
  initialDelay := 100
  maxDelay := 1000
  backoffMultiplier := 2
  jitter := false
  retryCondition := fun _ => true

/-- Claim C4: the delay computed after attempt n (hence waited before
attempt n+1) is `min(maxDelay, initialDelay * backoffMultiplier^(n-1))`;
with jitter enabled the capped value is perturbed multiplicatively by
`(2*rand - 1)/10`, i.e. by at most ±10% for a uniform draw in `[0,1]`,
and the perturbation is applied after the cap; and a run at the spec's
concrete no-jitter policy against an always-failing retryable operation
actually sleeps exactly 100, 200 and 400 ms before attempts 2, 3, 4. -/
theorem calculateDelay_backoff :
    (∀ (opts : RetryOpts) (n : Nat) (r : ℚ), opts.jitter = false → 1 ≤ n →
        calculateDelay n opts r =
          min opts.maxDelay (opts.initialDelay * opts.backoffMultiplier ^ (n - 1))) ∧
    (∀ (opts : RetryOpts) (n : Nat) (r : ℚ), opts.jitter = true →
        calculateDelay n opts r =
          min opts.maxDelay (opts.initialDelay * opts.backoffMultiplier ^ (n - 1)) *
            (1 + (2 * r - 1) / 10)) ∧
    (∀ (opts : RetryOpts) (n : Nat) (r : ℚ), opts.jitter = true →
        0 ≤ r → r ≤ 1 →
        0 ≤ min opts.maxDelay (opts.initialDelay * opts.backoffMultiplier ^ (n - 1)) →
        (9 / 10) * min opts.maxDelay (opts.initialDelay * opts.backoffMultiplier ^ (n - 1)) ≤
            calculateDelay n opts r ∧
          calculateDelay n opts r ≤
            (11 / 10) * min opts.maxDelay (opts.initialDelay * opts.backoffMultiplier ^ (n - 1))) ∧
    (withRetryRun (α := Unit) backoffProbeOpts (fun _ => .error ⟨"ECONNRESET"⟩)
        (fun _ _ => none) (fun _ => 0)).delays = [100, 200, 400] := by
  have hform : ∀ (opts : RetryOpts) (n : Nat) (r : ℚ), opts.jitter = true →
      calculateDelay n opts r =
        min opts.maxDelay (opts.initialDelay * opts.backoffMultiplier ^ (n - 1)) *
          (1 + (2 * r - 1) / 10) := by
    intro opts n r h
    simp only [calculateDelay, h, if_true, addJitter, min_comm, qpow_eq_pow]
    ring
  refine ⟨?_, hform, ?_, ?_⟩
  · intro opts n r h _
    simp only [calculateDelay, h, Bool.false_eq_true, if_false, min_comm, qpow_eq_pow]
  · intro opts n r h hr0 hr1 hcap
    rw [hform opts n r h]
    constructor <;> nlinarith
  · have hret : isRetriableError ⟨"ECONNRESET"⟩ (some (fun _ : TsError => true)) = true := by
      decide
    show (retryLoop backoffProbeOpts _ _ _ (3 + 1) 1).delays = [100, 200, 400]
    simp only [retryLoop, backoffProbeOpts, hret]
    norm_num [calculateDelay, qpow]

/-- Witness for `calculateDelay_backoff`: the no-jitter closed form at a
concrete policy and attempt. -/
theorem calculateDelay_backoff_witness :
    calculateDelay 2 backoffProbeOpts 0 =
      min backoffProbeOpts.maxDelay
        (backoffProbeOpts.initialDelay * backoffProbeOpts.backoffMultiplier ^ (2 - 1)) :=
  calculateDelay_backoff.1 backoffProbeOpts 2 0 rfl (by decide)

/-- A fresh user-scoped fact with the given rowid and importance, for the
retention scenarios (created and accessed at time 1000, swept at 2000). -/
def sweepFact (rid : Nat) (imp : ℚ) : MemRow :=
  ⟨rid, "m" ++ toString rid, none, some "u", "fact", imp, 0, 1000, 1000, none⟩

/-- Retention config capping user memories at 5, as in the spec's capacity
scenario. -/
def capacityFiveCfg : MemoryExpiryConfig := ⟨true, 5, 90, 0, true⟩

/-- Retention config capping user memories at 1, for the tie scenario. -/
def capacityOneCfg : MemoryExpiryConfig := ⟨true, 1, 90, 0, true⟩

/-- Seven fresh facts for one user with distinct importances 1..7. -/
def sevenFreshFacts : List MemRow :=
  [sweepFact 1 1, sweepFact 2 2, sweepFact 3 3, sweepFact 4 4,
   sweepFact 5 5, sweepFact 6 6, sweepFact 7 7]

/-- Inserted first (rowid 1) but with the larger id `"b"`. -/
def tieRowFirst : MemRow := ⟨1, "b", none, some "u", "fact", 1, 0, 1000, 1000, none⟩

/-- Inserted second (rowid 2) but with the smaller id `"a"`.  Ties with
`tieRowFirst` on both importance and accessed_at. -/
def tieRowSecond : MemRow := ⟨2, "a", none, some "u", "fact", 1, 0, 1000, 1000, none⟩

/-- A two-row table whose rows tie on the whole capacity-pass sort key. -/
def tieTable : List MemRow := [tieRowFirst, tieRowSecond]

/-- Claim C5, counterexample.  Two facts tie on `(importance,
accessedAt)`; the spec's tie-break by `id` would evict the row with id
`"a"`, but the SQL has no `id` tie-break: under the model's scan-order
tie behaviour the sweep evicts the first-inserted row (id `"b"`) and the
spec's designated victim `"a"` survives, so the victim set is not the one
the claim describes. -/
theorem capacityVictims_tiebreak_counterexample :
    specCapacityVictims tieTable "u" 1 = [tieRowSecond] ∧
    capacityVictims tieTable "u" 1 = [tieRowFirst] ∧
    cleanupExpiredMemories capacityOneCfg 2000 none tieTable = [tieRowSecond] := by
  refine ⟨by decide, by decide, by decide⟩

/-- Claim C5, amended: the capacity pass evicts the surplus facts chosen
by ascending `(importance, accessedAt)`, but remaining ties are not
broken by `id` — the SQL key ends at `accessed_at`, so tied victims fall
to table scan order.  For distinct keys the selection agrees with the
spec: with `maxMemoriesPerUser = 5` and 7 fresh facts of distinct
importances 1..7, exactly the five most important facts (3,4,5,6,7)
survive the sweep; and in the tied scenario the first-inserted row is the
one evicted. -/
theorem capacity_eviction_order :
    cleanupExpiredMemories capacityFiveCfg 2000 none sevenFreshFacts =
      [sweepFact 3 3, sweepFact 4 4, sweepFact 5 5, sweepFact 6 6, sweepFact 7 7] ∧
    cleanupExpiredMemories capacityOneCfg 2000 none tieTable = [tieRowSecond] := by
  refine ⟨by decide, by decide⟩

/-- Claim C3: an operation failing on every invocation with a retryable
error, under any policy with `maxAttempts = 3` (and a normally-returning
`onRetry`), is invoked exactly 3 times, and the error object of the 3rd
invocation itself is what propagates — not a synthetic error. -/
theorem withRetry_exhaustion {α : Type} (opts : RetryOpts)
    (fn : Nat → Except TsError α) (errs : Nat → TsError)
    (onR : Nat → TsError → Option TsError) (rand : Nat → ℚ)
    (hmax : opts.maxAttempts = 3)
    (hfail : ∀ n, fn n = .error (errs n))
    (hretry : ∀ n, isRetriableError (errs n) (some opts.retryCondition) = true)
    (hcallback : ∀ n e, onR n e = none) :
    (withRetryRun opts fn onR rand).invocations = 3 ∧
      (withRetryRun opts fn onR rand).outcome = .error (errs 3) := by
  unfold withRetryRun
  rw [hmax, show (3 : Nat) = 2 + 1 from rfl]
  simp only [retryLoop, hfail, hretry, hcallback, hmax]
  norm_num

/-- Witness for `withRetry_exhaustion`: a concrete three-attempt policy
against an operation that always fails with an HTTP 503 error. -/
theorem withRetry_exhaustion_witness :
    (withRetryRun (α := Unit) ⟨3, 1, 1, 1, false, fun _ => true⟩
        (fun _ => .error ⟨"HTTP 503"⟩) (fun _ _ => none) (fun _ => 0)).invocations = 3 ∧
      (withRetryRun (α := Unit) ⟨3, 1, 1, 1, false, fun _ => true⟩
        (fun _ => .error ⟨"HTTP 503"⟩) (fun _ _ => none) (fun _ => 0)).outcome =
        .error ⟨"HTTP 503"⟩ :=
  withRetry_exhaustion ⟨3, 1, 1, 1, false, fun _ => true⟩
    (fun _ => .error ⟨"HTTP 503"⟩) (fun _ => ⟨"HTTP 503"⟩) (fun _ _ => none) (fun _ => 0)
    rfl (fun _ => rfl)
    (fun _ => show isRetriableError ⟨"HTTP 503"⟩ (some (fun _ => true)) = true from by decide)
    (fun _ _ => rfl)

/-- Frame-local characterization of the `onRetry` calls a `retryLoop`
run makes, when the callback is normally-returning: the retried attempts
are exactly `attempt, attempt+1, ..., invocations-1`, each paired with
the error its invocation raised.  The hypothesis ties `fuel` to the
attempt counter the way `withRetryRun` starts it. -/
theorem retryLoop_onRetry_spec {α : Type} (opts : RetryOpts)
    (fn : Nat → Except TsError α) (onR : Nat → TsError → Option TsError)
    (rand : Nat → ℚ) (hc : ∀ a e, onR a e = none) :
    ∀ fuel attempt, fuel + attempt = opts.maxAttempts + 1 →
      ((retryLoop opts fn onR rand fuel attempt).onRetryCalls.map Prod.fst =
          List.range' attempt
            ((retryLoop opts fn onR rand fuel attempt).invocations - attempt)) ∧
        (∀ p ∈ (retryLoop opts fn onR rand fuel attempt).onRetryCalls,
            fn p.1 = .error p.2) ∧
        (1 ≤ fuel → attempt ≤ (retryLoop opts fn onR rand fuel attempt).invocations) := by
  intro fuel
  induction fuel with
  | zero =>
    intro attempt _
    refine ⟨?_, by simp [retryLoop], by omega⟩
    simp [retryLoop, Nat.sub_eq_zero_of_le (Nat.sub_le attempt 1)]
  | succ f ih =>
    intro attempt h
    cases hfn : fn attempt with
    | ok a =>
      simp [retryLoop, hfn]
    | error err =>
      by_cases hge : attempt ≥ opts.maxAttempts
      · simp [retryLoop, hfn, hge]
      · by_cases hr : isRetriableError err (some opts.retryCondition) = true
        · obtain ⟨ih1, ih2, ih3⟩ := ih (attempt + 1) (by omega)
          have hf1 : 1 ≤ f := by omega
          have hinv := ih3 hf1
          refine ⟨?_, ?_, ?_⟩
          · simp only [retryLoop, hfn, hge, if_false, hr, not_true, hc,
              List.map_cons]
            rw [ih1]
            have hn : (retryLoop opts fn onR rand f (attempt + 1)).invocations - attempt =
                ((retryLoop opts fn onR rand f (attempt + 1)).invocations - (attempt + 1)) + 1 := by
              omega
            rw [hn, List.range'_succ]
          · intro p hp
            simp only [retryLoop, hfn, hge, if_false, hr, not_true, hc,
              List.mem_cons] at hp
            rcases hp with hp | hp
            · rw [hp]; exact hfn
            · exact ih2 p hp
          · intro _
            simp only [retryLoop, hfn, hge, if_false, hr, not_true, hc]
            omega
        · simp [retryLoop, hfn, hge, hr]

/-- A three-attempt no-jitter policy whose operation always fails with a
retryable HTTP 503 error while `onRetry` itself throws. -/
def throwingProbeRun : RunResult Unit :=
  withRetryRun ⟨3, 1, 1, 1, false, fun _ => true⟩
    (fun _ => .error ⟨"HTTP 503"⟩)
    (fun _ _ => some ⟨"onRetry exploded"⟩) (fun _ => 0)

/-- Claim C7, counterexample.  The source calls `opts.onRetry(attempt,
err)` with no try/catch: when the callback throws on the first retry, the
remaining attempts never run (one invocation instead of three) and the
caller sees the callback's exception, not the operation's own error. -/
theorem onRetry_throw_counterexample :
    throwingProbeRun.invocations = 1 ∧
      throwingProbeRun.outcome = .error ⟨"onRetry exploded"⟩ :=
  ⟨rfl, rfl⟩

/-- Claim C7, amended: when `onRetry` returns normally it fires exactly
once per retry — for attempts `1 .. invocations-1`, never for the final
failing attempt nor for a successful one — and each call receives the
error that attempt raised; but the callback is invoked unprotected, so an
exception it raises propagates out of `withRetry`, aborts the remaining
attempts, and replaces the operation's own error (shown at the concrete
throwing run). -/
theorem onRetry_observability {α : Type} (opts : RetryOpts)
    (fn : Nat → Except TsError α) (onR : Nat → TsError → Option TsError)
    (rand : Nat → ℚ) (hc : ∀ a e, onR a e = none) :
    ((withRetryRun opts fn onR rand).onRetryCalls.map Prod.fst =
        List.range' 1 ((withRetryRun opts fn onR rand).invocations - 1)) ∧
      (∀ p ∈ (withRetryRun opts fn onR rand).onRetryCalls, fn p.1 = .error p.2) ∧
      throwingProbeRun.invocations = 1 ∧
      throwingProbeRun.outcome = .error ⟨"onRetry exploded"⟩ := by
  obtain ⟨h1, h2, _⟩ :=
    retryLoop_onRetry_spec opts fn onR rand hc opts.maxAttempts 1 (by omega)
  exact ⟨h1, h2, rfl, rfl⟩

/-- Witness for `onRetry_observability`: at the exhaustion probe the
callback fired exactly for retries 1 and 2. -/
theorem onRetry_observability_witness :
    ((withRetryRun (α := Unit) ⟨3, 1, 1, 1, false, fun _ => true⟩
        (fun _ => .error ⟨"HTTP 503"⟩) (fun _ _ => none)
        (fun _ => 0)).onRetryCalls.map Prod.fst =
      List.range' 1
        ((withRetryRun (α := Unit) ⟨3, 1, 1, 1, false, fun _ => true⟩
          (fun _ => .error ⟨"HTTP 503"⟩) (fun _ _ => none)
          (fun _ => 0)).invocations - 1)) :=
  (onRetry_observability ⟨3, 1, 1, 1, false, fun _ => true⟩
    (fun _ => .error ⟨"HTTP 503"⟩) (fun _ _ => none) (fun _ => 0)
    (fun _ _ => rfl)).1

/-! ### Structural lemmas about the sweep -/

theorem insertStable_perm (lt : α → α → Bool) (x : α) (l : List α) :
    (insertStable lt x l).Perm (x :: l) := by
  induction l with
  | nil => exact List.Perm.refl [x]
  | cons y ys ih =>
    rw [insertStable]
    by_cases h : lt x y
    · rw [if_pos h]
    · rw [if_neg h]
      exact (List.Perm.cons y ih).trans (List.Perm.swap x y ys)

theorem stableSort_perm (lt : α → α → Bool) (l : List α) :
    (stableSort lt l).Perm l := by
  have key : ∀ (l acc : List α),
      (l.foldl (fun acc x => insertStable lt x acc) acc).Perm (acc ++ l) := by
    intro l
    induction l with
    | nil => intro acc; simp
    | cons x xs ih =>
      intro acc
      rw [List.foldl_cons]
      refine (ih (insertStable lt x acc)).trans ?_
      refine (List.Perm.append_right xs (insertStable_perm lt x acc)).trans ?_
      exact List.perm_middle.symm
  simpa using key l []

theorem cleanupUser_sublist (cfg : MemoryExpiryConfig) (cutoff : ℤ)
    (rows : List MemRow) (u : String) :
    List.Sublist (cleanupUser cfg cutoff rows u) rows := by
  simp only [cleanupUser]
  split
  · exact (List.filter_sublist _).trans (List.filter_sublist _)
  · exact List.filter_sublist _

theorem sweepStep_sublist (cfg : MemoryExpiryConfig) (cutoff : ℤ)
    (target : Option String) (acc : List MemRow) (u : String) :
    List.Sublist (sweepStep cfg cutoff target acc u) acc := by
  unfold sweepStep
  cases target with
  | none => exact cleanupUser_sublist cfg cutoff acc u
  | some t =>
    dsimp only
    by_cases h : (decide (t ≠ "") && decide (u ≠ t)) = true
    · rw [if_pos h]
    · rw [if_neg h]
      exact cleanupUser_sublist cfg cutoff acc u

theorem foldl_sweepStep_sublist (cfg : MemoryExpiryConfig) (cutoff : ℤ)
    (target : Option String) :
    ∀ (users : List String) (acc : List MemRow),
      List.Sublist (users.foldl (sweepStep cfg cutoff target) acc) acc := by
  intro users
  induction users with
  | nil => intro acc; exact List.Sublist.refl acc
  | cons u us ih =>
    intro acc
    rw [List.foldl_cons]
    exact (ih _).trans (sweepStep_sublist cfg cutoff target acc u)

theorem cleanupExpiredMemories_sublist (cfg : MemoryExpiryConfig) (now : ℤ)
    (target : Option String) (rows : List MemRow) :
    List.Sublist (cleanupExpiredMemories cfg now target rows) rows := by
  unfold cleanupExpiredMemories
  split
  · exact List.Sublist.refl rows
  · exact foldl_sweepStep_sublist cfg _ target _ rows

theorem cleanupUser_count_le (cfg : MemoryExpiryConfig) (cutoff : ℤ)
    (rows : List MemRow) (u : String) :
    (userRows (cleanupUser cfg cutoff rows u) u).length ≤ cfg.maxMemoriesPerUser := by
  simp only [cleanupUser]
  by_cases h : cfg.maxMemoriesPerUser <
      (userRows (agePassUser u cutoff cfg.minImportance rows) u).length
  · rw [if_pos h]
    set afterAge := agePassUser u cutoff cfg.minImportance rows with hA
    set ur := userRows afterAge u with hur
    set excess := ur.length - cfg.maxMemoriesPerUser with hex
    set victims := capacityVictims afterAge u excess with hv
    set ids := victims.map (·.rowid) with hids
    have hcomm : userRows (deleteByRowids afterAge ids) u =
        (ur.filter fun r => !(decide (r.rowid ∈ ids))) := by
      simp only [userRows, deleteByRowids, hur]
      exact List.filter_comm _ _ afterAge
    rw [hcomm]
    have hperm : (stableSort orderByImportanceAsc ur).Perm ur :=
      stableSort_perm orderByImportanceAsc ur
    have hlen : ((stableSort orderByImportanceAsc ur).filter
        fun r => !(decide (r.rowid ∈ ids))).length =
        (ur.filter fun r => !(decide (r.rowid ∈ ids))).length :=
      (hperm.filter _).length_eq
    rw [← hlen]
    have hsplit : stableSort orderByImportanceAsc ur =
        victims ++ (stableSort orderByImportanceAsc ur).drop excess := by
      rw [hv]
      simp only [capacityVictims, ← hur, ← hA]
      exact (List.take_append_drop excess _).symm
    rw [hsplit, List.filter_append]
    have hvict : (victims.filter fun r => !(decide (r.rowid ∈ ids))).length = 0 := by
      rw [List.length_eq_zero]
      refine List.filter_eq_nil_iff.mpr ?_
      intro v hvmem
      simp only [Bool.not_eq_true', decide_eq_false_iff_not, Decidable.not_not]
      exact List.mem_map_of_mem (·.rowid) hvmem
    rw [List.length_append, hvict, Nat.zero_add]
    have hle : (((stableSort orderByImportanceAsc ur).drop excess).filter
        (fun r => !(decide (r.rowid ∈ ids)))).length ≤
        ((stableSort orderByImportanceAsc ur).drop excess).length :=
      (List.filter_sublist _).length_le
    have hdrop : ((stableSort orderByImportanceAsc ur).drop excess).length =
        (stableSort orderByImportanceAsc ur).length - excess :=
      List.length_drop excess _
    have hslen : (stableSort orderByImportanceAsc ur).length = ur.length :=
      hperm.length_eq
    omega
  · rw [if_neg h]
    omega

theorem cleanupUser_age_invariant (cfg : MemoryExpiryConfig) (cutoff : ℤ)
    (rows : List MemRow) (u : String) :
    ∀ r ∈ cleanupUser cfg cutoff rows u, r.user_id = some u →
      ¬(r.created_at < cutoff ∧ r.importance < cfg.minImportance) := by
  intro r hr hu
  have hr' : r ∈ agePassUser u cutoff cfg.minImportance rows := by
    simp only [cleanupUser] at hr
    by_cases h : cfg.maxMemoriesPerUser <
        (userRows (agePassUser u cutoff cfg.minImportance rows) u).length
    · rw [if_pos h] at hr
      exact (List.filter_sublist _).mem hr
    · rwa [if_neg h] at hr
  have hp := (List.mem_filter.mp hr').2
  simp only [hu, decide_True, Bool.true_and, Bool.not_eq_true', Bool.and_eq_false_iff,
    decide_eq_false_iff_not, not_lt] at hp
  rintro ⟨hage, himp⟩
  rcases hp with hp | hp
  · exact absurd hage (not_lt.mpr hp)
  · exact absurd himp (not_lt.mpr hp)

theorem foldl_user_invariant (cfg : MemoryExpiryConfig) (cutoff : ℤ) :
    ∀ (users : List String) (rows : List MemRow) (u : String), u ∈ users →
      (userRows (users.foldl (sweepStep cfg cutoff none) rows) u).length ≤
          cfg.maxMemoriesPerUser ∧
        ∀ r ∈ users.foldl (sweepStep cfg cutoff none) rows, r.user_id = some u →
          ¬(r.created_at < cutoff ∧ r.importance < cfg.minImportance) := by
  intro users
  induction users with
  | nil => intro rows u hu; exact absurd hu (List.not_mem_nil u)
  | cons v vs ih =>
    intro rows u hu
    rw [List.foldl_cons]
    rcases List.mem_cons.mp hu with hv | hv
    · subst hv
      have hstep1 : (userRows (sweepStep cfg cutoff none rows u) u).length ≤
          cfg.maxMemoriesPerUser := cleanupUser_count_le cfg cutoff rows u
      have hstep2 : ∀ r ∈ sweepStep cfg cutoff none rows u, r.user_id = some u →
          ¬(r.created_at < cutoff ∧ r.importance < cfg.minImportance) :=
        cleanupUser_age_invariant cfg cutoff rows u
      have hsub := foldl_sweepStep_sublist cfg cutoff none vs
        (sweepStep cfg cutoff none rows u)
      refine ⟨le_trans ((hsub.filter _).length_le) hstep1, ?_⟩
      intro r hr hru
      exact hstep2 r (hsub.mem hr) hru
    · exact ih (sweepStep cfg cutoff none rows v) u hv

/-- Claim C1: with retention enabled, after an untargeted sweep every
user's surviving fact count is at most `maxMemoriesPerUser`; no surviving
fact of any user is both older than the cutoff and below `minImportance`;
and the age pass never deletes a fact whose importance is at least
`minImportance`, regardless of its age. -/
theorem cleanup_retention_invariant (cfg : MemoryExpiryConfig) (now : ℤ)
    (rows : List MemRow) (u : String) (henabled : cfg.enabled = true) :
    (userRows (cleanupExpiredMemories cfg now none rows) u).length ≤
        cfg.maxMemoriesPerUser ∧
      (∀ r ∈ cleanupExpiredMemories cfg now none rows, r.user_id = some u →
        ¬(r.created_at < now - (cfg.maxAgeDays : ℤ) * 86400 ∧
            r.importance < cfg.minImportance)) ∧
      (∀ (otherRows : List MemRow) (v : String) (r : MemRow), r ∈ otherRows →
        cfg.minImportance ≤ r.importance →
        r ∈ agePassUser v (now - (cfg.maxAgeDays : ℤ) * 86400) cfg.minImportance otherRows) := by
  have hexempt : ∀ (otherRows : List MemRow) (v : String) (r : MemRow), r ∈ otherRows →
      cfg.minImportance ≤ r.importance →
      r ∈ agePassUser v (now - (cfg.maxAgeDays : ℤ) * 86400) cfg.minImportance otherRows := by
    intro otherRows v r hr himp
    refine List.mem_filter.mpr ⟨hr, ?_⟩
    have : decide (r.importance < cfg.minImportance) = false := by
      simp [not_lt.mpr himp]
    simp [this]
  have hcut : cleanupExpiredMemories cfg now none rows =
      (rows.filterMap (·.user_id)).dedup.foldl
        (sweepStep cfg (now - (cfg.maxAgeDays : ℤ) * 86400) none) rows := by
    simp [cleanupExpiredMemories, henabled]
  by_cases hu : u ∈ (rows.filterMap (·.user_id)).dedup
  · obtain ⟨h1, h2⟩ := foldl_user_invariant cfg (now - (cfg.maxAgeDays : ℤ) * 86400)
      (rows.filterMap (·.user_id)).dedup rows u hu
    rw [hcut]
    exact ⟨h1, h2, hexempt⟩
  · have hnone : ∀ r ∈ rows, r.user_id ≠ some u := by
      intro r hr hru
      exact hu (List.mem_dedup.mpr (List.mem_filterMap.mpr ⟨r, hr, hru⟩))
    have hsub := cleanupExpiredMemories_sublist cfg now none rows
    refine ⟨?_, ?_, hexempt⟩
    · have : userRows (cleanupExpiredMemories cfg now none rows) u = [] := by
        refine List.filter_eq_nil_iff.mpr ?_
        intro r hr
        simp only [decide_eq_true_eq]
        exact hnone r (hsub.mem hr)
      rw [this]
      exact Nat.zero_le _
    · intro r hr hru
      exact absurd hru (hnone r (hsub.mem hr))

/-- Witness for `cleanup_retention_invariant`: the seven-fact table under
the cap-at-five config, checked for its user. -/
theorem cleanup_retention_invariant_witness :
    (userRows (cleanupExpiredMemories capacityFiveCfg 2000 none sevenFreshFacts) "u").length ≤
      capacityFiveCfg.maxMemoriesPerUser :=
  (cleanup_retention_invariant capacityFiveCfg 2000 sevenFreshFacts "u" rfl).1

theorem filter_filter_of_imp (p q : α → Bool) (l : List α)
    (h : ∀ a ∈ l, q a = true → p a = true) :
    (l.filter p).filter q = l.filter q := by
  induction l with
  | nil => rfl
  | cons x xs ih =>
    have ih' := ih fun a ha => h a (List.mem_cons_of_mem x ha)
    by_cases hq : q x = true
    · have hp := h x (List.mem_cons_self x xs) hq
      simp [List.filter_cons, hp, hq, ih']
    · rw [Bool.not_eq_true] at hq
      by_cases hp : p x = true
      · simp [List.filter_cons, hp, hq, ih']
      · rw [Bool.not_eq_true] at hp
        simp [List.filter_cons, hp, hq, ih']

/-- The predicate selecting session-scoped (null `user_id`) rows. -/
def isSessionScoped (r : MemRow) : Bool := decide (r.user_id = none)

theorem cleanupUser_fixes_session_scoped (cfg : MemoryExpiryConfig) (cutoff : ℤ)
    (acc : List MemRow) (u : String)
    (hnd : (acc.map (·.rowid)).Nodup) :
    (cleanupUser cfg cutoff acc u).filter isSessionScoped = acc.filter isSessionScoped := by
  have hage : (agePassUser u cutoff cfg.minImportance acc).filter isSessionScoped =
      acc.filter isSessionScoped := by
    refine filter_filter_of_imp _ _ acc ?_
    intro a _ ha
    simp only [isSessionScoped, decide_eq_true_eq] at ha
    simp [ha]
  simp only [cleanupUser]
  by_cases h : cfg.maxMemoriesPerUser <
      (userRows (agePassUser u cutoff cfg.minImportance acc) u).length
  · rw [if_pos h]
    set afterAge := agePassUser u cutoff cfg.minImportance acc with hA
    set excess := (userRows afterAge u).length - cfg.maxMemoriesPerUser with hex
    set ids := (capacityVictims afterAge u excess).map (·.rowid) with hids
    have hdel : (deleteByRowids afterAge ids).filter isSessionScoped =
        afterAge.filter isSessionScoped := by
      refine filter_filter_of_imp _ _ afterAge ?_
      intro a ha hnull
      simp only [isSessionScoped, decide_eq_true_eq] at hnull
      simp only [Bool.not_eq_true', decide_eq_false_iff_not]
      intro hmem
      obtain ⟨v, hv, hveq⟩ := List.mem_map.mp hmem
      have hvur : v ∈ userRows afterAge u :=
        ((stableSort_perm orderByImportanceAsc (userRows afterAge u)).mem_iff).mp
          ((List.take_sublist excess _).mem hv)
      have hvuser : v.user_id = some u := by
        have := (List.mem_filter.mp hvur).2
        simpa using this
      have hvAfter : v ∈ afterAge := (List.mem_filter.mp hvur).1
      have hvacc : v ∈ acc := by
        rw [hA, agePassUser] at hvAfter
        exact (List.filter_sublist acc).mem hvAfter
      have haacc : a ∈ acc := by
        rw [hA, agePassUser] at ha
        exact (List.filter_sublist acc).mem ha
      have : a = v := List.inj_on_of_nodup_map hnd haacc hvacc hveq.symm
      rw [this, hvuser] at hnull
      exact Option.noConfusion hnull
    rw [hdel, hage]
  · rw [if_neg h]
    exact hage

theorem sweepStep_fixes_session_scoped (cfg : MemoryExpiryConfig) (cutoff : ℤ)
    (target : Option String) (acc : List MemRow) (u : String)
    (hnd : (acc.map (·.rowid)).Nodup) :
    (sweepStep cfg cutoff target acc u).filter isSessionScoped =
      acc.filter isSessionScoped := by
  unfold sweepStep
  cases target with
  | none => exact cleanupUser_fixes_session_scoped cfg cutoff acc u hnd
  | some t =>
    dsimp only
    by_cases h : (decide (t ≠ "") && decide (u ≠ t)) = true
    · rw [if_pos h]
    · rw [if_neg h]
      exact cleanupUser_fixes_session_scoped cfg cutoff acc u hnd

theorem foldl_fixes_session_scoped (cfg : MemoryExpiryConfig) (cutoff : ℤ)
    (target : Option String) :
    ∀ (users : List String) (acc : List MemRow),
      (acc.map (·.rowid)).Nodup →
      (users.foldl (sweepStep cfg cutoff target) acc).filter isSessionScoped =
        acc.filter isSessionScoped := by
  intro users
  induction users with
  | nil => intro acc _; rfl
  | cons u us ih =>
    intro acc hnd
    rw [List.foldl_cons]
    have hsub := sweepStep_sublist cfg cutoff target acc u
    have hnd' : ((sweepStep cfg cutoff target acc u).map (·.rowid)).Nodup :=
      hnd.sublist (hsub.map _)
    rw [ih _ hnd', sweepStep_fixes_session_scoped cfg cutoff target acc u hnd]

/-- Claim C10: any sweep — enabled or not, targeted or not — leaves the
session-scoped facts (null `user_id`) exactly as they were: the distinct
`user_id` enumeration is restricted to non-null values and both passes
filter on `user_id = u`, so only user-scoped rows are ever deleted.  The
rowids are assumed distinct, as SQLite guarantees. -/
theorem sweep_preserves_session_scoped (cfg : MemoryExpiryConfig) (now : ℤ)
    (target : Option String) (rows : List MemRow)
    (hnd : (rows.map (·.rowid)).Nodup) :
    (cleanupExpiredMemories cfg now target rows).filter isSessionScoped =
      rows.filter isSessionScoped := by
  unfold cleanupExpiredMemories
  split
  · rfl
  · exact foldl_fixes_session_scoped cfg _ target _ rows hnd

/-- Witness for `sweep_preserves_session_scoped`: a concrete table with a
session-scoped row next to a user-scoped row, under the cap-at-one
config. -/
theorem sweep_preserves_session_scoped_witness :
    (cleanupExpiredMemories capacityOneCfg 2000 none
        [⟨1, "s1", some "sess", none, "fact", 1, 0, 1000, 1000, none⟩,
         ⟨2, "m2", none, some "u", "fact", 1, 0, 1000, 1000, none⟩]).filter
        isSessionScoped =
      [⟨1, "s1", some "sess", none, "fact", 1, 0, 1000, 1000, none⟩,
       ⟨2, "m2", none, some "u", "fact", 1, 0, 1000, 1000, none⟩].filter
        isSessionScoped :=
  sweep_preserves_session_scoped capacityOneCfg 2000 none
    [⟨1, "s1", some "sess", none, "fact", 1, 0, 1000, 1000, none⟩,
     ⟨2, "m2", none, some "u", "fact", 1, 0, 1000, 1000, none⟩] (by decide)

/-- The access-statistics bump `updateMemoryAccess` applies to a row. -/
def bumpAccess (now : ℤ) (r : MemRow) : MemRow :=
  { r with access_count := r.access_count + 1, accessed_at := now }

theorem foldl_updateAccess_eq_map (now : ℤ) :
    ∀ (sel rows : List MemRow), (sel.map (·.id)).Nodup →
      sel.foldl (fun acc row => updateMemoryAccess now row.id acc) rows =
        rows.map fun r =>
          if r.id ∈ sel.map (·.id) then bumpAccess now r else r := by
  intro sel
  induction sel with
  | nil =>
    intro rows _
    simp
  | cons s ss ih =>
    intro rows hnd
    have hs : s.id ∉ ss.map (·.id) := (List.nodup_cons.mp hnd).1
    have hnd' : (ss.map (·.id)).Nodup := (List.nodup_cons.mp hnd).2
    rw [List.foldl_cons, ih (updateMemoryAccess now s.id rows) hnd',
      updateMemoryAccess, List.map_map]
    refine List.map_congr_left ?_
    intro r _
    simp only [Function.comp_apply, List.map_cons, List.mem_cons]
    by_cases hid : r.id = s.id
    · rw [if_pos hid]
      have h2 : r.id ∉ ss.map (·.id) := by rw [hid]; exact hs
      rw [if_neg h2, if_pos (Or.inl hid)]
      rfl
    · rw [if_neg hid]
      by_cases hss : r.id ∈ ss.map (·.id)
      · rw [if_pos hss, if_pos (Or.inr hss)]
      · rw [if_neg hss, if_neg (fun h => h.elim hid hss)]

theorem selectMemoriesByUser_subset (userId : String) (limit : Nat)
    (rows : List MemRow) :
    ∀ r ∈ selectMemoriesByUser userId limit rows, r ∈ rows := by
  intro r hr
  have h1 : r ∈ stableSort orderByImportanceDesc
      (rows.filter fun x => decide (x.user_id = some userId)) :=
    (List.take_sublist limit _).mem hr
  have h2 : r ∈ rows.filter fun x => decide (x.user_id = some userId) :=
    ((stableSort_perm orderByImportanceDesc _).mem_iff).mp h1
  exact (List.filter_sublist rows).mem h2

theorem selectMemoriesByUser_ids_nodup (userId : String) (limit : Nat)
    (rows : List MemRow) (hnd : (rows.map (·.id)).Nodup) :
    ((selectMemoriesByUser userId limit rows).map (·.id)).Nodup := by
  have h1 : ((rows.filter fun r => decide (r.user_id = some userId)).map (·.id)).Nodup :=
    hnd.sublist ((List.filter_sublist rows).map _)
  have h2 : ((stableSort orderByImportanceDesc
      (rows.filter fun r => decide (r.user_id = some userId))).map (·.id)).Nodup :=
    h1.perm (((stableSort_perm orderByImportanceDesc _).map _).symm)
  exact h2.sublist ((List.take_sublist limit _).map _)

/-- A user-scoped fact used in the access-statistics scenarios. -/
def accessProbeRow : MemRow := ⟨1, "m1", none, some "u", "likes tea", 1, 0, 5, 5, none⟩

/-- Claim C6, counterexample.  `searchMemories` returns a matching fact
but — unlike `getMemories`/`getMemoriesByUser` — never runs
`updateMemoryAccess`: after the search the stored fact still has
`accessCount` 0 and its original `accessedAt`, so a fact returned by
`searchMemories` is not updated as a side effect of being returned. -/
theorem searchMemories_access_counterexample :
    (searchMemories "tea" none 10 [accessProbeRow]).1 = [mapMemoryRow accessProbeRow] ∧
      (searchMemories "tea" none 10 [accessProbeRow]).2 = [accessProbeRow] ∧
      accessProbeRow.access_count = 0 ∧ accessProbeRow.accessed_at = 5 := by
  exact ⟨by decide, rfl, rfl, rfl⟩

/-- Claim C6, amended: `getMemoriesByUser` (like `getMemories`) updates
each returned fact's stored `accessCount`/`accessedAt` as a side effect
of returning it and leaves unreturned facts unchanged, and the retention
sweep only deletes — every surviving fact is an unchanged original row;
but `searchMemories` performs no access update at all: it returns the
table unchanged. -/
theorem access_update_effects :
    (∀ (query : String) (sessionId : Option String) (limit : Nat) (rows : List MemRow),
        (searchMemories query sessionId limit rows).2 = rows) ∧
      (∀ (cfg : MemoryExpiryConfig) (now : ℤ) (target : Option String)
          (rows : List MemRow) (r : MemRow),
          r ∈ cleanupExpiredMemories cfg now target rows → r ∈ rows) ∧
      (∀ (userId : String) (limit : Nat) (now : ℤ) (rows : List MemRow),
          (rows.map (·.id)).Nodup → ∀ r ∈ rows,
          (r ∈ selectMemoriesByUser userId limit rows →
            mapMemoryRow r ∈ (getMemoriesByUser userId limit now rows).1 ∧
              bumpAccess now r ∈ (getMemoriesByUser userId limit now rows).2) ∧
          (r ∉ selectMemoriesByUser userId limit rows →
            r ∈ (getMemoriesByUser userId limit now rows).2)) := by
  refine ⟨fun _ _ _ _ => rfl, ?_, ?_⟩
  · intro cfg now target rows r hr
    exact (cleanupExpiredMemories_sublist cfg now target rows).mem hr
  · intro userId limit now rows hnd r hr
    have hmap : (getMemoriesByUser userId limit now rows).2 =
        rows.map fun x =>
          if x.id ∈ (selectMemoriesByUser userId limit rows).map (·.id) then
            bumpAccess now x else x :=
      foldl_updateAccess_eq_map now (selectMemoriesByUser userId limit rows) rows
        (selectMemoriesByUser_ids_nodup userId limit rows hnd)
    constructor
    · intro hsel
      refine ⟨List.mem_map_of_mem mapMemoryRow hsel, ?_⟩
      rw [hmap]
      refine List.mem_map.mpr ⟨r, hr, ?_⟩
      rw [if_pos (List.mem_map_of_mem (·.id) hsel)]
    · intro hnsel
      rw [hmap]
      refine List.mem_map.mpr ⟨r, hr, ?_⟩
      rw [if_neg ?_]
      intro hin
      obtain ⟨v, hv, hveq⟩ := List.mem_map.mp hin
      have hvrows : v ∈ rows := selectMemoriesByUser_subset userId limit rows v hv
      have : v = r := List.inj_on_of_nodup_map hnd hvrows hr hveq
      rw [this] at hv
      exact hnsel hv

/-- Witness for `access_update_effects`: after listing user `u`'s facts,
the stored copy of the returned fact carries `accessCount` 1 and the
read-time `accessedAt`. -/
theorem access_update_effects_witness :
    bumpAccess 42 accessProbeRow ∈ (getMemoriesByUser "u" 100 42 [accessProbeRow]).2 :=
  (((access_update_effects.2.2 "u" 100 42 [accessProbeRow] (by decide)
    accessProbeRow (by decide)).1 (by decide))).2

/-- A store holding one session for user alice, created and last updated
at time 10, with no messages. -/
def probeStore : StoreState := ⟨[⟨"s1", "alice", 10, 10, none⟩], []⟩

/-- Claim C8, counterexample.  Appending a message to an existing session
succeeds, but the `sessions` table — including `updated_at` — is exactly
what it was: `addMessage` runs a single INSERT into `messages` and no
UPDATE on `sessions` (the prepared `updateSession` statement is never
executed anywhere in the store), so `updatedAt` is not bumped. -/
theorem addMessage_updatedAt_counterexample :
    addMessage ⟨some "msg1", .user, "hi", some 50, none, none⟩ "s1" "fresh" 99 probeStore =
      .ok ⟨[⟨"s1", "alice", 10, 10, none⟩],
        [⟨"msg1", "s1", .user, "hi", none, none, 50, none⟩]⟩ := by
  rfl

/-- Claim C8, amended: `addMessage` fails (with the foreign-key
constraint violation, the store's only failure here — not a distinct
`NotFound` error) exactly when the target session does not exist; on
success it appends the one message row and leaves the `sessions` table —
in particular every session's `updatedAt` — entirely unchanged, so the
Session record is indeed never mutated by appends, not even its
`updatedAt`. -/
theorem addMessage_spec (message : MessageTs) (sessionId freshId : String)
    (now : ℤ) (st : StoreState) :
    ((¬ ∃ s ∈ st.sessions, s.id = sessionId) →
        addMessage message sessionId freshId now st = .error .foreignKeyViolation) ∧
      ((∃ s ∈ st.sessions, s.id = sessionId) →
        addMessage message sessionId freshId now st =
          .ok ⟨st.sessions, st.messages ++
            [⟨jsOrStr message.id freshId, sessionId, message.role, message.content,
              message.toolCallId, message.toolName,
              jsOrInt message.timestamp now, none⟩]⟩) := by
  constructor
  · intro h
    rw [addMessage, if_neg ?_]
    simp only [List.any_eq_true, decide_eq_true_eq]
    exact h
  · intro h
    rw [addMessage, if_pos ?_]
    simp only [List.any_eq_true, decide_eq_true_eq]
    exact h

/-- Witness for `addMessage_spec`: the success branch at the probe
store, showing the unchanged sessions table. -/
theorem addMessage_spec_witness :
    addMessage ⟨some "msg1", .user, "hi", some 50, none, none⟩ "s1" "fresh" 99 probeStore =
      .ok ⟨probeStore.sessions, probeStore.messages ++
        [⟨jsOrStr (some "msg1") "fresh", "s1", .user, "hi", none, none,
          jsOrInt (some 50) 99, none⟩]⟩ :=
  (addMessage_spec ⟨some "msg1", .user, "hi", some 50, none, none⟩ "s1" "fresh" 99
    probeStore).2 ⟨⟨"s1", "alice", 10, 10, none⟩, by decide, rfl⟩

/-- A requested tool call whose execution throws. -/
def failingCall : ToolCallReq := ⟨"fetch", "url=x", .raises "boom"⟩

/-- A requested tool call whose execution returns a successful result. -/
def okCall : ToolCallReq := ⟨"scrape", "q=1", .result ⟨true, some "ok", none⟩⟩

/-- Claim C9, counterexample.  In a turn requesting a throwing tool and a
succeeding tool, a `tool_calls` row is written for each and the turn
returns one combined text with both outcomes — but the failing tool's
persisted record carries `success = false` with a null `result` and no
error text at all (the catch branch of `handleToolCalls` passes no
`result`/error to `addToolCall`): the record does not hold a non-empty
error.  The exception message appears only in the response text. -/
theorem handleToolCalls_record_error_counterexample :
    (handleToolCalls "Sure." [failingCall, okCall] "s1" 77).2 =
      [⟨"s1", "fetch", "url=x", none, false, 77⟩,
       ⟨"s1", "scrape", "q=1", some ⟨true, some "ok", none⟩, true, 77⟩] ∧
      (handleToolCalls "Sure." [failingCall, okCall] "s1" 77).1 =
        "Sure.\nTool fetch failed: boom\n\nTool scrape result: \"ok\"" := by
  exact ⟨by decide, by decide⟩

/-- Claim C9, amended: one tool raising never aborts the turn or the
other calls — `handleToolCalls` always returns a single combined
response, records exactly one `tool_calls` row per requested call in
order regardless of outcome, the raising call's record has
`success = false` and a null `result` (no error text is stored in the
record; the exception message is folded into the response text as
`Tool <name> failed: <message>`), and when the model produced no prose
the canned lead-in is substituted so the response is never empty. -/
theorem handleToolCalls_isolation :
    (∀ (content : String) (calls : List ToolCallReq) (sid : String) (now : ℤ),
        (handleToolCalls content calls sid now).2 =
          calls.map fun c => (processToolCall sid now c).1) ∧
      (∀ (content : String) (calls : List ToolCallReq) (sid : String) (now : ℤ),
        (handleToolCalls content calls sid now).2.length = calls.length) ∧
      (handleToolCalls "Sure." [failingCall, okCall] "s1" 77).2 =
        [⟨"s1", "fetch", "url=x", none, false, 77⟩,
         ⟨"s1", "scrape", "q=1", some ⟨true, some "ok", none⟩, true, 77⟩] ∧
      (handleToolCalls "" [failingCall, okCall] "s1" 77).1 =
        "I\x27ve used the available tools to help with your request:" ++
          "\nTool fetch failed: boom\n\nTool scrape result: \"ok\"" := by
  have h1 : ∀ (content : String) (calls : List ToolCallReq) (sid : String) (now : ℤ),
      (handleToolCalls content calls sid now).2 =
        calls.map fun c => (processToolCall sid now c).1 := by
    intro content calls sid now
    by_cases h : calls.isEmpty = true
    · rw [List.isEmpty_iff.mp h]
      rfl
    · simp [handleToolCalls, h, List.map_map, Function.comp]
  refine ⟨h1, ?_, by decide, by decide⟩
  intro content calls sid now
  rw [h1]
  exact List.length_map calls _
